import Mathlib

/-
Shallow embedding of the Marty Labs creative-engine memory core:
the per-project document store (pipeline items, feedback ledger,
learned patterns), the contradiction detector, the context compiler,
and the batch script-generation route.

Modelling conventions:
* JS strings are `String`, JS numbers used as timestamps are `Nat`.
* A JS field that may be `undefined` is an `Option`.
* JS truthiness of an optional string field (`undefined` and `""` are
  falsy) is `(o.getD "" ≠ "")`.
* `uuid()` is modelled by an ambient generator state `UuidState`
  (a stream of ids plus a counter); each call consumes one id.
* `Date.now()` is passed in as an explicit `now : Nat` argument.
* The file-backed document store is modelled as a `ProjectDocs` record
  holding the per-project documents; whole-document read/write becomes
  functional record update.
-/

/-- JS `String.prototype.startsWith` on character lists: first argument is
the haystack, second the pattern. -/
def startsWithList : List Char → List Char → Bool
  | _, [] => true
  | [], _ :: _ => false
  | c :: cs, p :: ps => c = p && startsWithList cs ps

/-- Helper for JS `String.prototype.includes`: does `pat` occur as a
contiguous run inside the haystack? -/
def hasSubList (pat : List Char) : List Char → Bool
  | [] => startsWithList [] pat
  | c :: rest => startsWithList (c :: rest) pat || hasSubList pat rest

/-- JS `s.includes(pat)` for strings. -/
def strIncludes (s pat : String) : Bool :=
  hasSubList pat.data s.data

/-- JS `s.substring(0, n)`. -/
def strTake (s : String) (n : Nat) : String :=
  String.mk (s.data.take n)

/-- JS `s.toLowerCase()` (character-wise lower-casing; the comments and
keywords in scope are ASCII). -/
def lowerStr (s : String) : String :=
  String.mk (s.data.map Char.toLower)

/-- JS `s.trim()`: strip leading and trailing whitespace. -/
def trimStr (s : String) : String :=
  String.mk (((s.data.dropWhile Char.isWhitespace).reverse.dropWhile Char.isWhitespace).reverse)

/-- A comment attached to a pipeline item. -/
structure ItemComment where
  id : String
  text : String
  timestamp : Nat
  author : String
  deriving Repr, DecidableEq

/-- A pipeline item (strategy, concept, script or storyboard).  The union
of the fields the routes read and write; fields a given stage does not
use stay at their defaults. -/
structure Item where
  id : String
  title : String := ""
  description : String := ""
  status : String := "pending"
  comments : List ItemComment := []
  parentId : Option String := none
  details : List String := []
  exampleConcepts : List String := []
  tier : String := ""
  format : String := ""
  duration : String := ""
  heroCopy : String := ""
  script : String := ""
  hooks : List String := []
  caption : String := ""
  productionNotes : String := ""
  createdAt : Nat := 0
  deriving Repr, DecidableEq

/-- A stored feedback-ledger entry. -/
structure FeedbackEntry where
  id : String
  itemId : String
  itemTitle : String
  stage : String
  action : String
  comment : Option String := none
  timestamp : Nat
  deriving Repr, DecidableEq

/-- A feedback entry as supplied by a caller of `addFeedback`: id and
timestamp may be omitted. -/
structure NewFeedback where
  id : Option String := none
  itemId : String
  itemTitle : String
  stage : String
  action : String
  comment : Option String := none
  timestamp : Option Nat := none
  deriving Repr, DecidableEq

/-- One element of `patterns.approved` / `patterns.rejected`:
`{title, stage, comment, timestamp}`. -/
structure PatternEntry where
  title : String
  stage : String
  comment : Option String
  timestamp : Nat
  deriving Repr, DecidableEq

/-- One element of `patterns.rules`: `{from, rule, timestamp}` (the JS
field `from` is a Lean keyword, rendered `fromTitle`). -/
structure PatternRule where
  fromTitle : String
  rule : Option String
  timestamp : Nat
  deriving Repr, DecidableEq

/-- The persisted `{projectId}_patterns.json` document. -/
structure Patterns where
  approved : List PatternEntry
  rejected : List PatternEntry
  rules : List PatternRule
  deriving Repr, DecidableEq

/-- A detected contradiction. -/
structure Contradiction where
  id : String
  type : String
  entry1 : FeedbackEntry
  entry2 : FeedbackEntry
  description : String
  deriving Repr, DecidableEq

/-- Project metadata from the `_projects.json` index. -/
structure ProjectMeta where
  id : String
  name : String
  createdAt : Nat
  updatedAt : Nat
  deriving Repr, DecidableEq

/-- The per-project documents of the store. -/
structure ProjectDocs where
  strategies : List Item := []
  concepts : List Item := []
  scripts : List Item := []
  storyboards : List Item := []
  feedback : List FeedbackEntry := []
  patterns : Patterns := ⟨[], [], []⟩
  deriving Repr, DecidableEq

/-- The ambient `uuid()` generator: a stream of ids and a counter of how
many have been consumed. -/
structure UuidState where
  gen : Nat → String
  counter : Nat

/-- The four pipeline stages. -/
inductive Stage where
  | strategies
  | concepts
  | scripts
  | storyboards
  deriving Repr, DecidableEq

/-- `getItems(projectId, stage)`. -/
def getItems (d : ProjectDocs) : Stage → List Item
  | .strategies => d.strategies
  | .concepts => d.concepts
  | .scripts => d.scripts
  | .storyboards => d.storyboards

/-- `setItems(projectId, stage, items)` (the project-index `updatedAt`
touch has no observable effect on the per-project documents modelled
here). -/
def setItems (d : ProjectDocs) (s : Stage) (items : List Item) : ProjectDocs :=
  match s with
  | .strategies => { d with strategies := items }
  | .concepts => { d with concepts := items }
  | .scripts => { d with scripts := items }
  | .storyboards => { d with storyboards := items }

/-- `addItems` on a single stage document: filter the new items down to
those whose id is not already present, then append. -/
def addItemsList (existing newItems : List Item) : List Item :=
  let existingIds := existing.map (fun i => i.id)
  let toAdd := newItems.filter (fun i => i.id ∉ existingIds)
  existing ++ toAdd

/-- `addItems(projectId, stage, newItems)` from the store. -/
def addItems (d : ProjectDocs) (s : Stage) (newItems : List Item) : ProjectDocs :=
  setItems d s (addItemsList (getItems d s) newItems)

/-- JS truthiness of an optional string (`undefined` and `""` are falsy). -/
def optStrTruthy (o : Option String) : Bool :=
  o.getD "" ≠ ""

/-- Projection used for `patterns.approved` and `patterns.rejected`. -/
def projPattern (f : FeedbackEntry) : PatternEntry :=
  { title := f.itemTitle, stage := f.stage, comment := f.comment, timestamp := f.timestamp }

/-- Projection used for `patterns.rules`. -/
def projRule (f : FeedbackEntry) : PatternRule :=
  { fromTitle := f.itemTitle, rule := f.comment, timestamp := f.timestamp }

/-- The rule filter of `updatePatterns`:
`f.comment && f.comment.trim().length > 0`. -/
def ruleWorthy (f : FeedbackEntry) : Bool :=
  optStrTruthy f.comment && (trimStr (f.comment.getD "")).length > 0

/-- `updatePatterns(projectId, feedback)`: recompute the three summaries
from the full ledger and overwrite the stored patterns document. -/
def updatePatterns (feedback : List FeedbackEntry) (old : Patterns) : Patterns :=
  { old with
    approved := (feedback.filter (fun f => f.action = "approved")).map projPattern
    rejected := (feedback.filter (fun f => f.action = "rejected")).map projPattern
    rules := ((feedback.filter (fun f => f.action = "revision")).filter ruleWorthy).map projRule }

/-- Enrichment performed by `addFeedback`: `id: entry.id || uuid()`,
`timestamp: entry.timestamp || Date.now()` (JS `||` replaces any falsy
value, so an explicit `""` id or `0` timestamp is also replaced). -/
def enrichEntry (e : NewFeedback) (newId : String) (now : Nat) : FeedbackEntry :=
  { id := match e.id with
      | some s => if s = "" then newId else s
      | none => newId
    itemId := e.itemId
    itemTitle := e.itemTitle
    stage := e.stage
    action := e.action
    comment := e.comment
    timestamp := match e.timestamp with
      | some t => if t = 0 then now else t
      | none => now }

/-- `addFeedback(projectId, entry)`: enrich, append to the feedback
document, recompute patterns, return the stored entry. -/
def addFeedback (d : ProjectDocs) (e : NewFeedback) (newId : String) (now : Nat) :
    ProjectDocs × FeedbackEntry :=
  let enriched := enrichEntry e newId now
  let fb := d.feedback ++ [enriched]
  ({ d with feedback := fb, patterns := updatePatterns fb d.patterns }, enriched)

/-- The direct-clash test of `findContradictions`: the two actions are
`approved` and `rejected` in either order. -/
def isDirectClash (a b : FeedbackEntry) : Bool :=
  (a.action = "approved" && b.action = "rejected") ||
  (a.action = "rejected" && b.action = "approved")

/-- The direct contradiction pushed for a clashing pair (uuid assigned
later, in emission order). -/
def mkDirect (a b : FeedbackEntry) : Contradiction :=
  { id := ""
    type := "direct"
    entry1 := a
    entry2 := b
    description := "You " ++ a.action ++ " \"" ++ a.itemTitle ++ "\" then "
      ++ b.action ++ " it. Which call do we go with?" }

/-- Keys of a JS object in insertion order: the first occurrence of each
distinct value (item ids are uuid strings, which JS object keys keep in
insertion order). -/
def firstDedup : List String → List String
  | [] => []
  | a :: rest => a :: (firstDedup rest).filter (fun x => x ≠ a)

/-- The `byItem` grouping of `findContradictions`: groups in order of
first occurrence of each item id, entries within a group in ledger
order. -/
def groupByItem (l : List FeedbackEntry) : List (List FeedbackEntry) :=
  (firstDedup (l.map (fun e => e.itemId))).map
    (fun k => l.filter (fun e => e.itemId = k))

/-- The nested pair loop over one item group: for every `i < j` with
clashing actions, push one direct contradiction (outer index first). -/
def directList : List FeedbackEntry → List Contradiction
  | [] => []
  | a :: rest =>
      ((rest.filter (fun b => isDirectClash a b)).map (mkDirect a)) ++ directList rest

/-- All direct contradictions of a ledger, grouped by item. -/
def directContras (l : List FeedbackEntry) : List Contradiction :=
  (groupByItem l).flatMap directList

/-- The fixed theme trigger-keyword table of `findContradictions`. -/
def themeKeywords : List (String × List String) :=
  [("shorter", ["too long", "shorter", "trim", "cut down"]),
   ("longer", ["too short", "longer", "expand", "more detail"]),
   ("lighter", ["too dark", "lighter", "softer", "less edgy"]),
   ("darker", ["darker", "edgier", "push it", "more aggressive"]),
   ("grounded", ["too absurd", "too weird", "more realistic", "grounded"]),
   ("absurd", ["more absurd", "weirder", "push further", "too safe"])]

/-- Keyword list of a theme. -/
def kwsOf (theme : String) : List String :=
  (themeKeywords.lookup theme).getD []

/-- Entries tagged under a theme: entries with a truthy comment whose
lower-cased comment contains one of the theme's keywords as a
substring. -/
def taggedEntries (l : List FeedbackEntry) (kws : List String) : List FeedbackEntry :=
  (l.filter (fun e => optStrTruthy e.comment)).filter
    (fun e => kws.any (fun kw => strIncludes (lowerStr (e.comment.getD "")) kw))

/-- Display form of a comment in a thematic description:
`e.comment?.substring(0, 60)` (a missing comment would render as
`undefined`; tagged entries always carry one). -/
def commentSnippet (e : FeedbackEntry) : String :=
  match e.comment with
  | some c => strTake c 60
  | none => "undefined"

/-- The fixed opposing-axis order. -/
def axisPairs : List (String × String) :=
  [("shorter", "longer"), ("lighter", "darker"), ("grounded", "absurd")]

/-- The thematic contradiction emitted for one axis when both themes
have at least one tagged entry: the last (most recent) tagged entry of
each side. -/
def axisContra (l : List FeedbackEntry) (a b : String) : Option Contradiction :=
  match (taggedEntries l (kwsOf a)).getLast?, (taggedEntries l (kwsOf b)).getLast? with
  | some e1, some e2 =>
      some { id := ""
             type := "thematic"
             entry1 := e1
             entry2 := e2
             description := "Mixed signals: \"" ++ commentSnippet e1 ++ "...\" vs \""
               ++ commentSnippet e2 ++ "...\" — help me calibrate." }
  | _, _ => none

/-- All contradictions of a ledger before uuid assignment: direct first
(grouped by item), then thematic in fixed axis order. -/
def contraCore (l : List FeedbackEntry) : List Contradiction :=
  directContras l ++ axisPairs.filterMap (fun p => axisContra l p.1 p.2)

/-- Assign `uuid()` results in emission order starting at counter `n`. -/
def assignIds (gen : Nat → String) (n : Nat) : List Contradiction → List Contradiction
  | [] => []
  | c :: rest => { c with id := gen n } :: assignIds gen (n + 1) rest

/-- `findContradictions(projectId)`: recomputed from the current ledger;
each emitted contradiction consumes one fresh uuid from the ambient
generator. -/
def findContradictions (l : List FeedbackEntry) (u : UuidState) :
    List Contradiction × UuidState :=
  let core := contraCore l
  (assignIds u.gen u.counter core, ⟨u.gen, u.counter + core.length⟩)

/-- The `summary` block of `getFullContext`. -/
structure ContextSummary where
  totalFeedback : Nat
  approvedCount : Nat
  rejectedCount : Nat
  revisionCount : Nat
  activeContradictions : Nat
  learnedRules : Nat
  deriving Repr, DecidableEq

/-- The payload assembled by `getFullContext`. -/
structure FullContext where
  project : Option ProjectMeta
  strategies : List Item
  concepts : List Item
  scripts : List Item
  feedback : List FeedbackEntry
  patterns : Patterns
  contradictions : List Contradiction
  summary : ContextSummary
  deriving Repr, DecidableEq

/-- `getFullContext(projectId)`: read every document fresh, recompute
contradictions, and derive the summary counts. -/
def getFullContext (p : Option ProjectMeta) (d : ProjectDocs) (u : UuidState) :
    FullContext × UuidState :=
  let fc := findContradictions d.feedback u
  ({ project := p
     strategies := d.strategies
     concepts := d.concepts
     scripts := d.scripts
     feedback := d.feedback
     patterns := d.patterns
     contradictions := fc.1
     summary :=
       { totalFeedback := d.feedback.length
         approvedCount := (d.feedback.filter (fun f => f.action = "approved")).length
         rejectedCount := (d.feedback.filter (fun f => f.action = "rejected")).length
         revisionCount := (d.feedback.filter (fun f => f.action = "revision")).length
         activeContradictions := fc.1.length
         learnedRules := d.patterns.rules.length } }, fc.2)

/-- Parsed generation output for one script (the generation provider is
an external collaborator; optional fields model the route's `||`
fallbacks). -/
structure GenResult where
  script : Option String := none
  hooks : Option (List String) := none
  caption : Option String := none
  productionNotes : Option String := none
  deriving Repr, DecidableEq

/-- The script item built for one concept in `POST /scripts/batch`. -/
def mkScript (nid : String) (now : Nat) (g : GenResult) (c : Item) : Item :=
  { id := nid
    title := "Script: " ++ c.title
    description := c.description
    status := "pending"
    comments := []
    parentId := some c.id
    tier := c.tier
    format := c.format
    duration := c.duration
    heroCopy := c.heroCopy
    script := g.script.getD ""
    hooks := g.hooks.getD c.hooks
    caption := g.caption.getD c.caption
    productionNotes := g.productionNotes.getD ""
    createdAt := now }

/-- The per-concept generation loop of the batch route, consuming fresh
uuids in order. -/
def genScripts (gen : Item → GenResult) (fresh : Nat → String) (now : Nat) :
    Nat → List Item → List Item
  | _, [] => []
  | k, c :: rest => mkScript (fresh k) now (gen c) c :: genScripts gen fresh now (k + 1) rest

/-- The selection of `POST /scripts/batch`: concepts with status
`approved` whose id does not already appear as a `parentId` among the
existing scripts. -/
def eligibleConcepts (d : ProjectDocs) : List Item :=
  let approved := d.concepts.filter (fun c => c.status = "approved")
  let existingParentIds := d.scripts.map (fun s => s.parentId)
  approved.filter (fun c => some c.id ∉ existingParentIds)

/-- `POST /scripts/batch`: if nothing is eligible, answer `generated: 0`
and leave the store unchanged; otherwise generate one script per
eligible concept and append the results via `addItems`. -/
def scriptsBatch (d : ProjectDocs) (gen : Item → GenResult) (fresh : Nat → String)
    (now : Nat) : ProjectDocs × Nat :=
  let toGenerate := eligibleConcepts d
  if toGenerate = [] then (d, 0)
  else
    let generated := genScripts gen fresh now 0 toGenerate
    (addItems d .scripts generated, generated.length)

/-- Ordered pairs `(i, j)` of list elements with `i` strictly before `j`,
in outer-index-first order. -/
def allPairs {α : Type _} : List α → List (α × α)
  | [] => []
  | a :: rest => rest.map (fun b => (a, b)) ++ allPairs rest

/-- The two entries a contradiction references. -/
def pairProj (c : Contradiction) : FeedbackEntry × FeedbackEntry :=
  (c.entry1, c.entry2)

/-- Specification-side description of the direct-contradiction pairs: all
pairs of ledger entries, earlier first, on the same item, whose actions
are exactly approved and rejected in either order. -/
def specDirectPairs (l : List FeedbackEntry) : List (FeedbackEntry × FeedbackEntry) :=
  (allPairs l).filter (fun p => p.1.itemId = p.2.itemId && isDirectClash p.1 p.2)

/-- The code-side direct pairs: within-group pairs of the by-item
grouping. -/
def groupPairsCode (l : List FeedbackEntry) : List (FeedbackEntry × FeedbackEntry) :=
  (groupByItem l).flatMap (fun g => (allPairs g).filter (fun p => isDirectClash p.1 p.2))

/-- Feedback ledger of the worked example: approve, comment, reject on
the same item. -/
def fbApprovedX : FeedbackEntry :=
  { id := "f1", itemId := "X", itemTitle := "Hook A", stage := "concepts",
    action := "approved", comment := none, timestamp := 1 }

/-- Second entry of the worked example. -/
def fbCommentedX : FeedbackEntry :=
  { id := "f2", itemId := "X", itemTitle := "Hook A", stage := "concepts",
    action := "commented", comment := none, timestamp := 2 }

/-- Third entry of the worked example. -/
def fbRejectedX : FeedbackEntry :=
  { id := "f3", itemId := "X", itemTitle := "Hook A", stage := "concepts",
    action := "rejected", comment := none, timestamp := 3 }

/-- A concrete uuid generator state for worked examples. -/
def demoUuid : UuidState := ⟨fun n => toString n, 0⟩

/-- Erase the freshly generated uuid of a contradiction. -/
def stripId (c : Contradiction) : Contradiction :=
  { c with id := "" }

/-- Specification-side tagging predicate: an entry is tagged under a
theme when its non-empty comment, lower-cased, contains one of the
theme's trigger keywords as a substring. -/
def taggedSpec (kws : List String) (e : FeedbackEntry) : Bool :=
  e.comment.getD "" ≠ "" && kws.any (fun kw => strIncludes (lowerStr (e.comment.getD "")) kw)

/-- Commented entry matching the shorter theme via "too long". -/
def fbTooLong : FeedbackEntry :=
  { id := "g1", itemId := "A", itemTitle := "Hook A", stage := "concepts",
    action := "commented", comment := some "this is too long", timestamp := 1 }

/-- Commented entry matching the longer theme via "expand". -/
def fbExpand : FeedbackEntry :=
  { id := "g2", itemId := "B", itemTitle := "Hook B", stage := "concepts",
    action := "commented", comment := some "please expand it", timestamp := 2 }

/-- Shorter-tagged comment at t=1. -/
def fbShorterT1 : FeedbackEntry :=
  { id := "m1", itemId := "A", itemTitle := "Hook A", stage := "concepts",
    action := "commented", comment := some "too long", timestamp := 1 }

/-- Longer-tagged comment at t=2. -/
def fbLongerT2 : FeedbackEntry :=
  { id := "m2", itemId := "B", itemTitle := "Hook B", stage := "concepts",
    action := "commented", comment := some "make it longer", timestamp := 2 }

/-- Shorter-tagged comment at t=3. -/
def fbShorterT3 : FeedbackEntry :=
  { id := "m3", itemId := "C", itemTitle := "Hook C", stage := "concepts",
    action := "commented", comment := some "too long again", timestamp := 3 }

/-- Single entry whose comment matches both themes of the
lighter/darker axis. -/
def fbSelfContra : FeedbackEntry :=
  { id := "h1", itemId := "S", itemTitle := "Spot", stage := "scripts",
    action := "commented", comment := some "too dark but make it darker", timestamp := 7 }

/-- A sequence of ledger appends: each step supplies the caller entry,
the uuid the store would draw, and the current time. -/
def appendAll (d : ProjectDocs) (steps : List (NewFeedback × String × Nat)) : ProjectDocs :=
  steps.foldl (fun acc st => (addFeedback acc st.1 st.2.1 st.2.2).1) d

/-- Specification-side count of `commented` ledger entries. -/
def commentedCount (l : List FeedbackEntry) : Nat :=
  (l.filter (fun f => f.action = "commented")).length

/-- Commented entry (no theme keyword) at t=1. -/
def fbNiceP1 : FeedbackEntry :=
  { id := "p1", itemId := "I1", itemTitle := "T1", stage := "concepts",
    action := "commented", comment := some "nice", timestamp := 1 }

/-- Commented entry (no theme keyword) at t=2. -/
def fbCoolP2 : FeedbackEntry :=
  { id := "p2", itemId := "I2", itemTitle := "T2", stage := "concepts",
    action := "commented", comment := some "cool", timestamp := 2 }

/-- Approved entry at t=3. -/
def fbApprovedP3 : FeedbackEntry :=
  { id := "p3", itemId := "I3", itemTitle := "T3", stage := "concepts",
    action := "approved", comment := none, timestamp := 3 }

/-- Project documents with two commented entries and one approved
entry. -/
def demoDocsC8 : ProjectDocs :=
  { feedback := [fbNiceP1, fbCoolP2, fbApprovedP3] }

/-- Approved concept A. -/
def conceptA : Item :=
  { id := "A", title := "Concept A", status := "approved" }

/-- Approved concept B. -/
def conceptB : Item :=
  { id := "B", title := "Concept B", status := "approved" }

/-- Pending concept C. -/
def conceptC : Item :=
  { id := "C", title := "Concept C", status := "pending" }

/-- Project documents with two approved concepts, one pending concept
and no scripts. -/
def demoDocsC6 : ProjectDocs :=
  { concepts := [conceptA, conceptB, conceptC] }

/-- A generation caller returning no structured fields. -/
def demoGen : Item → GenResult := fun _ => {}

/-- A fresh-uuid stream for the batch route. -/
def demoFresh : Nat → String := fun n => "s" ++ toString n

/-- First new item with duplicated id. -/
def dupItemA : Item :=
  { id := "z", title := "first" }

/-- Second new item with the same id. -/
def dupItemB : Item :=
  { id := "z", title := "second" }

/-- A single new item with a fresh id. -/
def itemW : Item :=
  { id := "w", title := "only" }

theorem assignIds_map {β : Type _} (f : Contradiction → β)
    (hf : ∀ c s, f { c with id := s } = f c) (g : Nat → String) :
    ∀ (n : Nat) (cs : List Contradiction), (assignIds g n cs).map f = cs.map f := by
  intro n cs
  induction cs generalizing n with
  | nil => rfl
  | cons c rest ih => simp [assignIds, hf, ih]

theorem assignIds_filter_map {β : Type _} (p : Contradiction → Bool)
    (hp : ∀ c s, p { c with id := s } = p c) (f : Contradiction → β)
    (hf : ∀ c s, f { c with id := s } = f c) (g : Nat → String) :
    ∀ (n : Nat) (cs : List Contradiction),
      ((assignIds g n cs).filter p).map f = (cs.filter p).map f := by
  intro n cs
  induction cs generalizing n with
  | nil => rfl
  | cons c rest ih =>
    simp only [assignIds, List.filter_cons, hp]
    cases hc : p c <;> simp [hc, hf, ih]

theorem directList_pairs (g : List FeedbackEntry) :
    (directList g).map pairProj = (allPairs g).filter (fun p => isDirectClash p.1 p.2) := by
  induction g with
  | nil => rfl
  | cons a rest ih =>
    simp only [directList, allPairs, List.map_append, List.filter_append, ih,
      List.filter_map, List.map_map]
    rfl

theorem directList_type {g : List FeedbackEntry} :
    ∀ c ∈ directList g, c.type = "direct" := by
  induction g with
  | nil => intro c hc; cases hc
  | cons a rest ih =>
    intro c hc
    rcases List.mem_append.mp hc with h | h
    · rcases List.mem_map.mp h with ⟨b, _, hb⟩
      rw [← hb]; rfl
    · exact ih c h

theorem directContras_type {l : List FeedbackEntry} :
    ∀ c ∈ directContras l, c.type = "direct" := by
  intro c hc
  rcases List.mem_flatMap.mp hc with ⟨g, _, hg⟩
  exact directList_type c hg

theorem axisContra_type {l : List FeedbackEntry} {a b : String} {c : Contradiction}
    (h : axisContra l a b = some c) : c.type = "thematic" := by
  unfold axisContra at h
  cases h1 : (taggedEntries l (kwsOf a)).getLast? <;>
    cases h2 : (taggedEntries l (kwsOf b)).getLast? <;>
      simp [h1, h2] at h
  rw [← h]

theorem mem_firstDedup {x : String} : ∀ {xs : List String}, x ∈ firstDedup xs ↔ x ∈ xs := by
  intro xs
  induction xs with
  | nil => simp [firstDedup]
  | cons a rest ih =>
    by_cases h : x = a
    · simp [firstDedup, h]
    · simp [firstDedup, List.mem_filter, ih, h]

theorem firstDedup_nodup : ∀ (xs : List String), (firstDedup xs).Nodup := by
  intro xs
  induction xs with
  | nil => exact List.nodup_nil
  | cons a rest ih =>
    refine List.nodup_cons.mpr ⟨?_, List.Nodup.filter _ ih⟩
    intro hmem
    have := (List.mem_filter.mp hmem).2
    simp at this

theorem flatMap_extract {α β : Type _} [DecidableEq α] (G : α → List β) :
    ∀ (ks : List α), ks.Nodup → ∀ k0 ∈ ks,
      List.Perm (G k0 ++ (ks.filter (fun x => x ≠ k0)).flatMap G) (ks.flatMap G) := by
  intro ks
  induction ks with
  | nil => intro _ k0 hk; cases hk
  | cons a rest ih =>
    intro hnd k0 hk
    rcases List.nodup_cons.mp hnd with ⟨hna, hndr⟩
    rcases List.mem_cons.mp hk with h | h
    · subst h
      have hfa : (k0 :: rest).filter (fun x => x ≠ k0) = rest := by
        rw [List.filter_cons]
        simp only [decide_eq_true_eq]
        rw [if_neg (by simp)]
        exact List.filter_eq_self.mpr (fun x hx => by
          simp only [decide_eq_true_eq]
          intro hxk; exact hna (hxk ▸ hx))
      rw [hfa]
      exact List.Perm.refl _
    · have hne : a ≠ k0 := fun hak => hna (hak ▸ h)
      have hfa : (a :: rest).filter (fun x => x ≠ k0) = a :: rest.filter (fun x => x ≠ k0) := by
        rw [List.filter_cons, if_pos (by simp [hne])]
      rw [hfa]
      simp only [List.flatMap_cons]
      refine List.Perm.trans ?_ (List.Perm.append_left (G a) (ih hndr k0 h))
      have hsw : ∀ (u v w : List β), List.Perm (u ++ (v ++ w)) (v ++ (u ++ w)) := by
        intro u v w
        rw [← List.append_assoc, ← List.append_assoc]
        exact List.Perm.append_right w List.perm_append_comm
      exact hsw _ _ _

theorem groupPairsCode_perm : ∀ (l : List FeedbackEntry),
    List.Perm (groupPairsCode l) (specDirectPairs l) := by
  intro l
  induction l with
  | nil => exact List.Perm.refl _
  | cons e rest ih =>
    have hgrp : groupByItem (e :: rest)
        = ((e :: rest).filter (fun x => x.itemId = e.itemId))
          :: ((firstDedup (rest.map (fun x => x.itemId))).filter (fun x => x ≠ e.itemId)).map
               (fun k => (e :: rest).filter (fun x => x.itemId = k)) := rfl
    have hhead : (e :: rest).filter (fun x => x.itemId = e.itemId)
        = e :: rest.filter (fun x => x.itemId = e.itemId) := by
      rw [List.filter_cons, if_pos (by simp)]
    have htail : ((firstDedup (rest.map (fun x => x.itemId))).filter (fun x => x ≠ e.itemId)).map
          (fun k => (e :: rest).filter (fun x => x.itemId = k))
        = ((firstDedup (rest.map (fun x => x.itemId))).filter (fun x => x ≠ e.itemId)).map
          (fun k => rest.filter (fun x => x.itemId = k)) := by
      apply List.map_congr_left
      intro k hk
      have hk2 : k ≠ e.itemId := by
        have h2 := (List.mem_filter.mp hk).2
        simpa using h2
      rw [List.filter_cons, if_neg ?_]
      simp only [decide_eq_true_eq]
      exact fun h => hk2 h.symm
    have hF : (allPairs (e :: rest.filter (fun x => x.itemId = e.itemId))).filter
          (fun p => isDirectClash p.1 p.2)
        = ((rest.filter (fun x => x.itemId = e.itemId)).filter
             (fun b => isDirectClash e b)).map (fun b => (e, b))
          ++ (allPairs (rest.filter (fun x => x.itemId = e.itemId))).filter
               (fun p => isDirectClash p.1 p.2) := by
      simp only [allPairs, List.filter_append, List.filter_map, Function.comp]
      rfl
    have hspec : specDirectPairs (e :: rest)
        = (rest.filter (fun b => e.itemId = b.itemId && isDirectClash e b)).map (fun b => (e, b))
          ++ specDirectPairs rest := by
      unfold specDirectPairs
      simp only [allPairs, List.filter_append, List.filter_map, Function.comp]
      rfl
    have hhead2 : (rest.filter (fun x => x.itemId = e.itemId)).filter (fun b => isDirectClash e b)
        = rest.filter (fun b => e.itemId = b.itemId && isDirectClash e b) := by
      rw [List.filter_filter]
      apply List.filter_congr
      intro b _
      by_cases hb : b.itemId = e.itemId
      · rw [decide_eq_true hb, decide_eq_true hb.symm, Bool.and_true, Bool.true_and]
      · rw [decide_eq_false hb, decide_eq_false (fun h => hb h.symm),
          Bool.and_false, Bool.false_and]
    have hcode : (firstDedup (rest.map (fun x => x.itemId))).flatMap
          (fun k => (allPairs (rest.filter (fun x => x.itemId = k))).filter
            (fun p => isDirectClash p.1 p.2)) = groupPairsCode rest := by
      unfold groupPairsCode groupByItem
      rw [List.flatMap_map]
    unfold groupPairsCode
    rw [hgrp, hhead, htail]
    simp only [List.flatMap_cons, List.flatMap_map]
    rw [hF, hspec, ← hhead2, List.append_assoc]
    apply List.Perm.append_left
    by_cases hk0 : e.itemId ∈ firstDedup (rest.map (fun x => x.itemId))
    · have hperm := flatMap_extract
        (fun k => (allPairs (rest.filter (fun x => x.itemId = k))).filter
          (fun p => isDirectClash p.1 p.2))
        (firstDedup (rest.map (fun x => x.itemId))) (firstDedup_nodup _) e.itemId hk0
      rw [hcode] at hperm
      exact hperm.trans ih
    · have hR0 : rest.filter (fun x => x.itemId = e.itemId) = [] := by
        rw [List.filter_eq_nil_iff]
        intro x hx
        simp only [decide_eq_true_eq]
        intro hxe
        exact hk0 (mem_firstDedup.mpr (List.mem_map.mpr ⟨x, hx, hxe⟩))
      have hKf : (firstDedup (rest.map (fun x => x.itemId))).filter (fun x => x ≠ e.itemId)
          = firstDedup (rest.map (fun x => x.itemId)) := by
        rw [List.filter_eq_self]
        intro k hkmem
        simp only [decide_eq_true_eq]
        intro hke
        exact hk0 (hke ▸ hkmem)
      rw [hR0, hKf, hcode]
      simp only [allPairs, List.filter_nil, List.nil_append]
      exact ih

theorem contraCore_filter_direct (l : List FeedbackEntry) :
    (contraCore l).filter (fun c => c.type = "direct") = directContras l := by
  unfold contraCore
  rw [List.filter_append, List.filter_eq_self.mpr ?h1, List.filter_eq_nil_iff.mpr ?h2,
    List.append_nil]
  case h1 =>
    intro c hc
    simpa using directContras_type c hc
  case h2 =>
    intro c hc
    rcases List.mem_filterMap.mp hc with ⟨p, _, hp⟩
    simp [axisContra_type hp]

theorem contraCore_filter_thematic (l : List FeedbackEntry) :
    (contraCore l).filter (fun c => c.type = "thematic")
      = axisPairs.filterMap (fun p => axisContra l p.1 p.2) := by
  unfold contraCore
  rw [List.filter_append, List.filter_eq_nil_iff.mpr ?h1, List.filter_eq_self.mpr ?h2,
    List.nil_append]
  case h1 =>
    intro c hc
    simp [directContras_type c hc]
  case h2 =>
    intro c hc
    rcases List.mem_filterMap.mp hc with ⟨p, _, hp⟩
    simpa using axisContra_type hp

theorem findContradictions_fst (l : List FeedbackEntry) (u : UuidState) :
    (findContradictions l u).1 = assignIds u.gen u.counter (contraCore l) := rfl

theorem directContras_map_pairProj (l : List FeedbackEntry) :
    (directContras l).map pairProj = groupPairsCode l := by
  unfold directContras groupPairsCode
  rw [List.map_flatMap]
  simp only [directList_pairs]

theorem taggedEntries_eq_filter (l : List FeedbackEntry) (kws : List String) :
    taggedEntries l kws = l.filter (taggedSpec kws) := by
  unfold taggedEntries taggedSpec optStrTruthy
  rw [List.filter_filter]
  apply List.filter_congr
  intro e _
  exact Bool.and_comm _ _

theorem stripId_eq_self {c : Contradiction} (h : c.id = "") : stripId c = c := by
  cases c
  simp only [stripId]
  simp only at h
  rw [h]

theorem directList_id {g : List FeedbackEntry} : ∀ c ∈ directList g, c.id = "" := by
  induction g with
  | nil => intro c hc; cases hc
  | cons a rest ih =>
    intro c hc
    rcases List.mem_append.mp hc with h | h
    · rcases List.mem_map.mp h with ⟨b, _, hb⟩
      rw [← hb]; rfl
    · exact ih c h

theorem directContras_id {l : List FeedbackEntry} : ∀ c ∈ directContras l, c.id = "" := by
  intro c hc
  rcases List.mem_flatMap.mp hc with ⟨g, _, hg⟩
  exact directList_id c hg

theorem axisContra_id {l : List FeedbackEntry} {a b : String} {c : Contradiction}
    (h : axisContra l a b = some c) : c.id = "" := by
  unfold axisContra at h
  cases h1 : (taggedEntries l (kwsOf a)).getLast? <;>
    cases h2 : (taggedEntries l (kwsOf b)).getLast? <;>
      simp [h1, h2] at h
  rw [← h]

theorem contraCore_id_blank (l : List FeedbackEntry) : ∀ c ∈ contraCore l, c.id = "" := by
  intro c hc
  rcases List.mem_append.mp hc with h | h
  · exact directContras_id c h
  · rcases List.mem_filterMap.mp h with ⟨p, _, hp⟩
    exact axisContra_id hp

theorem findContradictions_strip (l : List FeedbackEntry) (u : UuidState) :
    (findContradictions l u).1.map stripId = contraCore l := by
  rw [findContradictions_fst, assignIds_map stripId (fun c s => rfl)]
  rw [List.map_congr_left (fun c hc => stripId_eq_self (contraCore_id_blank l c hc))]
  exact List.map_id _

/-- C1: for every ledger, the direct contradictions emitted by the
contradiction detector correspond exactly (as a multiset, one each) to
the pairs of same-item entries, earlier entry first, whose two actions
are exactly approved and rejected in either order — so every pair is
examined, not only adjacent ones; and on the ledger
[approved(X,t=1), commented(X,t=2), rejected(X,t=3)] exactly one direct
contradiction is emitted, referencing the t=1 and t=3 entries. -/
theorem c1_direct_pairs_exact :
    (∀ (l : List FeedbackEntry) (u : UuidState),
      List.Perm (((findContradictions l u).1.filter (fun c => c.type = "direct")).map pairProj)
        (specDirectPairs l))
    ∧ ((findContradictions [fbApprovedX, fbCommentedX, fbRejectedX] demoUuid).1.map
        (fun c => (c.type, c.entry1, c.entry2))
        = [("direct", fbApprovedX, fbRejectedX)]) := by
  constructor
  · intro l u
    rw [findContradictions_fst,
      assignIds_filter_map (fun c => c.type = "direct") (fun c s => rfl) pairProj
        (fun c s => rfl),
      contraCore_filter_direct, directContras_map_pairProj]
    exact groupPairsCode_perm l
  · decide

/-- C2: for every ledger, the thematic contradictions emitted (modulo the
fresh uuid) are exactly one per opposing axis whose two themes both have
at least one tagged entry — tagging meaning the entry's non-empty
comment, lower-cased, contains a trigger keyword of the theme as a
substring; an axis tagged on one side only yields none.  Concretely, a
ledger with only a "too long" comment yields zero thematic
contradictions, and adding an "expand" comment yields exactly one. -/
theorem c2_thematic_both_sides :
    (∀ (l : List FeedbackEntry) (u : UuidState),
      ((findContradictions l u).1.filter (fun c => c.type = "thematic")).map stripId
        = axisPairs.filterMap (fun p => axisContra l p.1 p.2)
      ∧ ∀ a b : String, (a, b) ∈ axisPairs →
          ((axisContra l a b).isSome ↔
            l.filter (taggedSpec (kwsOf a)) ≠ [] ∧ l.filter (taggedSpec (kwsOf b)) ≠ []))
    ∧ ((findContradictions [fbTooLong] demoUuid).1.filter
        (fun c => c.type = "thematic")).length = 0
    ∧ ((findContradictions [fbTooLong, fbExpand] demoUuid).1.filter
        (fun c => c.type = "thematic")).length = 1 := by
  refine ⟨fun l u => ⟨?_, ?_⟩, by decide, by decide⟩
  · rw [findContradictions_fst,
      assignIds_filter_map (fun c => c.type = "thematic") (fun c s => rfl) stripId
        (fun c s => rfl),
      contraCore_filter_thematic]
    rw [List.map_congr_left (fun c hc => by
      rcases List.mem_filterMap.mp hc with ⟨p, _, hp⟩
      exact stripId_eq_self (axisContra_id hp))]
    exact List.map_id _
  · intro a b _
    unfold axisContra
    rw [← taggedEntries_eq_filter, ← taggedEntries_eq_filter,
      ← List.getLast?_isSome, ← List.getLast?_isSome]
    cases h1 : (taggedEntries l (kwsOf a)).getLast? <;>
      cases h2 : (taggedEntries l (kwsOf b)).getLast? <;>
        simp [h1, h2]

/-- C2 witness: the both-sides criterion evaluated on the concrete
shorter/longer axis for the two-comment ledger. -/
theorem c2_thematic_both_sides_witness :
    (axisContra [fbTooLong, fbExpand] "shorter" "longer").isSome ↔
      ([fbTooLong, fbExpand].filter (taggedSpec (kwsOf "shorter")) ≠ []
        ∧ [fbTooLong, fbExpand].filter (taggedSpec (kwsOf "longer")) ≠ []) :=
  (c2_thematic_both_sides.1 [fbTooLong, fbExpand] demoUuid).2 "shorter" "longer" (by decide)

/-- C3: whenever both themes of an axis have tagged entries, the
emitted thematic contradiction references the last (most recent in
ledger order) tagged entry of each side — the tagged lists being the
in-order sublists of the ledger matching each theme; concretely, with
shorter tags at t=1 and t=3 and a longer tag at t=2, the emitted
contradiction references the t=3 entry, not the t=1 entry. -/
theorem c3_thematic_most_recent :
    (∀ (l : List FeedbackEntry) (a b : String),
      taggedEntries l (kwsOf a) ≠ [] → taggedEntries l (kwsOf b) ≠ [] →
      ∃ c, axisContra l a b = some c
        ∧ some c.entry1 = (taggedEntries l (kwsOf a)).getLast?
        ∧ some c.entry2 = (taggedEntries l (kwsOf b)).getLast?
        ∧ taggedEntries l (kwsOf a) = l.filter (taggedSpec (kwsOf a))
        ∧ taggedEntries l (kwsOf b) = l.filter (taggedSpec (kwsOf b)))
    ∧ ((findContradictions [fbShorterT1, fbLongerT2, fbShorterT3] demoUuid).1.map
        (fun c => (c.type, c.entry1, c.entry2))
        = [("thematic", fbShorterT3, fbLongerT2)]) := by
  constructor
  · intro l a b ha hb
    rw [← List.getLast?_isSome] at ha hb
    rcases Option.isSome_iff_exists.mp ha with ⟨e1, h1⟩
    rcases Option.isSome_iff_exists.mp hb with ⟨e2, h2⟩
    have hax : axisContra l a b
        = some ⟨"", "thematic", e1, e2,
            "Mixed signals: \"" ++ commentSnippet e1 ++ "...\" vs \""
              ++ commentSnippet e2 ++ "...\" — help me calibrate."⟩ := by
      unfold axisContra
      rw [h1, h2]
    exact ⟨_, hax, by rw [h1], by rw [h2],
      taggedEntries_eq_filter l _, taggedEntries_eq_filter l _⟩
  · decide

/-- C3 witness: the most-recent-wins conclusion evaluated on the
concrete t=1/t=2/t=3 ledger. -/
theorem c3_thematic_most_recent_witness :
    (axisContra [fbShorterT1, fbLongerT2, fbShorterT3] "shorter" "longer").map
      (fun c => (c.entry1, c.entry2)) = some (fbShorterT3, fbLongerT2) := by
  obtain ⟨c, hc, h1, h2, _, _⟩ := c3_thematic_most_recent.1
    [fbShorterT1, fbLongerT2, fbShorterT3] "shorter" "longer" (by decide) (by decide)
  have hA : (taggedEntries [fbShorterT1, fbLongerT2, fbShorterT3]
      (kwsOf "shorter")).getLast? = some fbShorterT3 := by decide
  have hB : (taggedEntries [fbShorterT1, fbLongerT2, fbShorterT3]
      (kwsOf "longer")).getLast? = some fbLongerT2 := by decide
  rw [hA] at h1
  rw [hB] at h2
  rw [hc]
  show some (c.entry1, c.entry2) = some (fbShorterT3, fbLongerT2)
  rw [Option.some.inj h1, Option.some.inj h2]

/-- C7 counterexample: two successive invocations of the contradiction
detector on the same unchanged ledger do not return equal results — each
run draws fresh uuids for the contradiction ids. -/
theorem c7_two_invocations_differ :
    (findContradictions [fbApprovedX, fbCommentedX, fbRejectedX] demoUuid).1
      ≠ (findContradictions [fbApprovedX, fbCommentedX, fbRejectedX]
          (findContradictions [fbApprovedX, fbCommentedX, fbRejectedX] demoUuid).2).1 := by
  decide

/-- C7 amended: apart from the freshly drawn uuid ids, the contradiction
detector is a pure deterministic function of the ledger — any two
invocations agree modulo ids — and the returned sequence is all direct
contradictions first (grouped by item, pairs as discovered) followed by
the thematic contradictions in the fixed axis order shorter/longer,
lighter/darker, grounded/absurd. -/
theorem c7_deterministic_mod_ids :
    ∀ (l : List FeedbackEntry) (u v : UuidState),
      (findContradictions l u).1.map stripId = (findContradictions l v).1.map stripId
      ∧ (findContradictions l u).1.map stripId
          = directContras l ++ axisPairs.filterMap (fun p => axisContra l p.1 p.2) := by
  intro l u v
  refine ⟨?_, ?_⟩
  · rw [findContradictions_strip, findContradictions_strip]
  · rw [findContradictions_strip]
    rfl

/-- C9: a ledger with a single entry whose comment contains both
"too dark" (lighter theme) and "darker" (darker theme) makes the
detector emit a thematic contradiction whose entry1 and entry2 are that
same entry — one comment can contradict itself. -/
theorem c9_single_comment_self_contradiction :
    (findContradictions [fbSelfContra] demoUuid).1.map
      (fun c => (c.type, c.entry1, c.entry2))
      = [("thematic", fbSelfContra, fbSelfContra)] := by
  decide

theorem str_length_pos_iff (s : String) : 0 < s.length ↔ s ≠ "" := by
  constructor
  · intro h hs
    rw [hs] at h
    cases h
  · intro h
    by_contra hle
    have h0 : s.length = 0 := Nat.eq_zero_of_not_pos hle
    have hd : s.data = [] := List.length_eq_zero.mp h0
    exact h (String.ext hd)

theorem ruleWorthy_eq (f : FeedbackEntry) :
    ruleWorthy f = decide (trimStr (f.comment.getD "") ≠ "") := by
  cases h : f.comment with
  | none =>
    unfold ruleWorthy optStrTruthy
    rw [h]
    rfl
  | some c =>
    unfold ruleWorthy optStrTruthy
    rw [h]
    simp only [Option.getD_some]
    by_cases hc : trimStr c = ""
    · simp [hc]
    · have h1 : 0 < (trimStr c).length := (str_length_pos_iff _).mpr hc
      have h2 : c ≠ "" := fun hce => hc (by rw [hce]; rfl)
      simp [h1, h2, hc]

theorem appendAll_feedback (steps : List (NewFeedback × String × Nat)) :
    ∀ (d : ProjectDocs), (appendAll d steps).feedback
      = d.feedback ++ steps.map (fun st => enrichEntry st.1 st.2.1 st.2.2) := by
  induction steps with
  | nil => intro d; simp [appendAll]
  | cons st rest ih =>
    intro d
    show (appendAll (addFeedback d st.1 st.2.1 st.2.2).1 rest).feedback = _
    rw [ih]
    show (d.feedback ++ [enrichEntry st.1 st.2.1 st.2.2]) ++ _ = _
    rw [List.append_assoc]
    rfl

/-- C4: after the last of any sequence of ledger appends, the persisted
pattern summary equals the in-order projections of the resulting
ledger: `approved`/`rejected` are the action-filtered entries projected
to {title, stage, comment, timestamp}, and `rules` are the revision
entries with a comment that is non-empty after trimming whitespace,
projected to {from, rule, timestamp}. -/
theorem c4_patterns_projection :
    ∀ (d : ProjectDocs) (steps : List (NewFeedback × String × Nat))
      (e : NewFeedback) (nid : String) (now : Nat),
      (appendAll d (steps ++ [(e, nid, now)])).patterns
        = { approved := ((appendAll d (steps ++ [(e, nid, now)])).feedback.filter
              (fun f => f.action = "approved")).map projPattern
            rejected := ((appendAll d (steps ++ [(e, nid, now)])).feedback.filter
              (fun f => f.action = "rejected")).map projPattern
            rules := (((appendAll d (steps ++ [(e, nid, now)])).feedback.filter
              (fun f => f.action = "revision")).filter
                (fun f => trimStr (f.comment.getD "") ≠ "")).map projRule } := by
  intro d steps e nid now
  have hr : ∀ (L : List FeedbackEntry),
      L.filter ruleWorthy = L.filter (fun f => trimStr (f.comment.getD "") ≠ "") :=
    fun L => List.filter_congr (fun f _ => ruleWorthy_eq f)
  simp only [appendAll, List.foldl_append, List.foldl_cons, List.foldl_nil]
  show (addFeedback (appendAll d steps) e nid now).1.patterns = _
  unfold addFeedback updatePatterns
  simp only []
  rw [← hr]
  rfl

/-- C5: the ledger is append-only — after any sequence of appends the
stored ledger is exactly the prior ledger followed by the enriched
entries in append order, so no earlier entry is modified or removed —
and each append returns the stored entry, with the id and timestamp
freshly assigned whenever the caller omitted them. -/
theorem c5_ledger_append_only :
    ∀ (d : ProjectDocs) (steps : List (NewFeedback × String × Nat)),
      (appendAll d steps).feedback
        = d.feedback ++ steps.map (fun st => enrichEntry st.1 st.2.1 st.2.2)
      ∧ ∀ (e : NewFeedback) (nid : String) (now : Nat),
          (addFeedback d e nid now).2 = enrichEntry e nid now
          ∧ (addFeedback d e nid now).1.feedback = d.feedback ++ [enrichEntry e nid now]
          ∧ (e.id = none → (addFeedback d e nid now).2.id = nid)
          ∧ (e.timestamp = none → (addFeedback d e nid now).2.timestamp = now) := by
  intro d steps
  refine ⟨appendAll_feedback steps d, fun e nid now => ⟨rfl, rfl, ?_, ?_⟩⟩
  · intro h
    show (enrichEntry e nid now).id = nid
    unfold enrichEntry
    rw [h]
  · intro h
    show (enrichEntry e nid now).timestamp = now
    unfold enrichEntry
    rw [h]

/-- C5 witness: an append with omitted id and timestamp gets both
assigned. -/
theorem c5_ledger_append_only_witness :
    (addFeedback {} ⟨none, "X", "Hook", "concepts", "approved", none, none⟩ "id1" 42).2.id = "id1"
    ∧ (addFeedback {} ⟨none, "X", "Hook", "concepts", "approved", none, none⟩
        "id1" 42).2.timestamp = 42 := by
  have h := (c5_ledger_append_only {} []).2
    ⟨none, "X", "Hook", "concepts", "approved", none, none⟩ "id1" 42
  exact ⟨h.2.2.1 rfl, h.2.2.2 rfl⟩

theorem assignIds_length (g : Nat → String) :
    ∀ (n : Nat) (cs : List Contradiction), (assignIds g n cs).length = cs.length := by
  intro n cs
  induction cs generalizing n with
  | nil => rfl
  | cons c rest ih => simp [assignIds, ih]

/-- C8 counterexample: on a ledger with two commented entries and one
approved entry, the commented count is 2, but no component of the
compiled summary block equals 2 — the summary carries no count for the
`commented` action type. -/
theorem c8_no_commented_count :
    commentedCount demoDocsC8.feedback = 2
    ∧ ((getFullContext none demoDocsC8 demoUuid).1).summary.totalFeedback ≠ 2
    ∧ ((getFullContext none demoDocsC8 demoUuid).1).summary.approvedCount ≠ 2
    ∧ ((getFullContext none demoDocsC8 demoUuid).1).summary.rejectedCount ≠ 2
    ∧ ((getFullContext none demoDocsC8 demoUuid).1).summary.revisionCount ≠ 2
    ∧ ((getFullContext none demoDocsC8 demoUuid).1).summary.activeContradictions ≠ 2
    ∧ ((getFullContext none demoDocsC8 demoUuid).1).summary.learnedRules ≠ 2 := by
  decide

/-- C8 amended: the compiled context summary contains the total feedback
count, counts for the approved, rejected and revision action types (but
none for commented), the contradiction count and the rule count, each
equal to the corresponding count derived from the freshly read ledger,
the recomputed contradiction list and the stored pattern summary. -/
theorem c8_summary_counts :
    ∀ (p : Option ProjectMeta) (d : ProjectDocs) (u : UuidState),
      ((getFullContext p d u).1).summary.totalFeedback = d.feedback.length
      ∧ ((getFullContext p d u).1).summary.approvedCount
          = d.feedback.countP (fun f => f.action = "approved")
      ∧ ((getFullContext p d u).1).summary.rejectedCount
          = d.feedback.countP (fun f => f.action = "rejected")
      ∧ ((getFullContext p d u).1).summary.revisionCount
          = d.feedback.countP (fun f => f.action = "revision")
      ∧ ((getFullContext p d u).1).summary.activeContradictions
          = (contraCore d.feedback).length
      ∧ ((getFullContext p d u).1).summary.learnedRules = d.patterns.rules.length
      ∧ ((getFullContext p d u).1).contradictions = (findContradictions d.feedback u).1
      ∧ ((getFullContext p d u).1).feedback = d.feedback := by
  intro p d u
  refine ⟨rfl, ?_, ?_, ?_, ?_, rfl, rfl, rfl⟩
  · exact (List.countP_eq_length_filter _ _).symm
  · exact (List.countP_eq_length_filter _ _).symm
  · exact (List.countP_eq_length_filter _ _).symm
  · show (assignIds u.gen u.counter (contraCore d.feedback)).length = _
    exact assignIds_length _ _ _

theorem getItems_setItems (d : ProjectDocs) (s : Stage) (items : List Item) :
    getItems (setItems d s items) s = items := by
  cases s <;> rfl

theorem setItems_setItems (d : ProjectDocs) (s : Stage) (x y : List Item) :
    setItems (setItems d s x) s y = setItems d s y := by
  cases s <;> rfl

theorem addItemsList_absorb (existing newItems : List Item) :
    addItemsList (addItemsList existing newItems) newItems
      = addItemsList existing newItems := by
  unfold addItemsList
  simp only []
  have hnil : newItems.filter
      (fun i => i.id ∉ ((existing ++ newItems.filter
        (fun i => i.id ∉ existing.map (fun j => j.id))).map (fun j => j.id))) = [] := by
    rw [List.filter_eq_nil_iff]
    intro i hi
    simp only [decide_not, Bool.not_eq_true', decide_eq_false_iff_not, not_not]
    by_cases hm : i.id ∈ existing.map (fun j => j.id)
    · rw [List.map_append]
      exact List.mem_append_left _ hm
    · have hit : i ∈ newItems.filter
          (fun i => i.id ∉ existing.map (fun j => j.id)) := by
        refine List.mem_filter.mpr ⟨hi, ?_⟩
        simpa using hm
      simp only [decide_not] at hit
      rw [List.map_append]
      exact List.mem_append_right _ (List.mem_map_of_mem (fun j => j.id) hit)
  rw [hnil, List.append_nil]

/-- C10 counterexample: a new-items list containing two items with the
same id `z` gets both appended — the filter only checks the stored ids,
not duplicates within the new list — so a stage whose stored ids were
pairwise distinct ends up with a duplicated id. -/
theorem c10_duplicate_ids_counterexample :
    ((getItems ({} : ProjectDocs) Stage.scripts).map (fun i => i.id)).Nodup
    ∧ ¬ ((getItems (addItems ({} : ProjectDocs) Stage.scripts [dupItemA, dupItemB])
          Stage.scripts).map (fun i => i.id)).Nodup := by
  decide

/-- C10 amended: addItems appends exactly the new items whose id is not
already present in the stored list, preserving the stored items and
their order; calling it twice with the same list leaves the store
identical to the state after the first call; and the stored ids stay
pairwise distinct provided they were distinct before and the new items'
ids are pairwise distinct among themselves. -/
theorem c10_add_items_dedup_idempotent :
    ∀ (d : ProjectDocs) (s : Stage) (newItems : List Item),
      getItems (addItems d s newItems) s
        = getItems d s ++ newItems.filter
            (fun i => i.id ∉ (getItems d s).map (fun j => j.id))
      ∧ addItems (addItems d s newItems) s newItems = addItems d s newItems
      ∧ (((getItems d s).map (fun i => i.id)).Nodup →
          (newItems.map (fun i => i.id)).Nodup →
          ((getItems (addItems d s newItems) s).map (fun i => i.id)).Nodup) := by
  intro d s newItems
  have hget : getItems (addItems d s newItems) s
      = addItemsList (getItems d s) newItems := by
    rw [addItems, getItems_setItems]
  refine ⟨?_, ?_, ?_⟩
  · rw [hget]
    rfl
  · show setItems (addItems d s newItems) s
        (addItemsList (getItems (addItems d s newItems) s) newItems) = _
    rw [hget, addItemsList_absorb, addItems, setItems_setItems]
  · intro h1 h2
    rw [hget]
    show ((getItems d s ++ newItems.filter
      (fun i => i.id ∉ (getItems d s).map (fun j => j.id))).map (fun i => i.id)).Nodup
    rw [List.map_append]
    refine List.Nodup.append h1 ?_ ?_
    · exact h2.sublist (List.Sublist.map _ (List.filter_sublist _))
    · intro a ha hb
      rcases List.mem_map.mp hb with ⟨i, hi, hia⟩
      have hp := (List.mem_filter.mp hi).2
      simp only [decide_not, Bool.not_eq_true', decide_eq_false_iff_not] at hp
      exact hp (hia ▸ ha)

/-- C10 witness: the idempotence and distinctness conclusions evaluated
on a singleton new-items list against the empty store. -/
theorem c10_add_items_dedup_idempotent_witness :
    addItems (addItems ({} : ProjectDocs) Stage.scripts [itemW]) Stage.scripts [itemW]
      = addItems ({} : ProjectDocs) Stage.scripts [itemW]
    ∧ ((getItems (addItems ({} : ProjectDocs) Stage.scripts [itemW]) Stage.scripts).map
        (fun i => i.id)).Nodup := by
  have h := c10_add_items_dedup_idempotent ({} : ProjectDocs) Stage.scripts [itemW]
  exact ⟨h.2.1, h.2.2 (by decide) (by decide)⟩

theorem genScripts_length (gen : Item → GenResult) (fresh : Nat → String) (now : Nat) :
    ∀ (k : Nat) (cs : List Item), (genScripts gen fresh now k cs).length = cs.length := by
  intro k cs
  induction cs generalizing k with
  | nil => rfl
  | cons c rest ih => simp [genScripts, ih]

theorem genScripts_parentIds (gen : Item → GenResult) (fresh : Nat → String) (now : Nat) :
    ∀ (k : Nat) (cs : List Item),
      (genScripts gen fresh now k cs).map (fun i => i.parentId)
        = cs.map (fun c => some c.id) := by
  intro k cs
  induction cs generalizing k with
  | nil => rfl
  | cons c rest ih => simp [genScripts, mkScript, ih]

theorem genScripts_ids (gen : Item → GenResult) (fresh : Nat → String) (now : Nat) :
    ∀ (k : Nat) (cs : List Item) (i : Item),
      i ∈ genScripts gen fresh now k cs → ∃ n, i.id = fresh n := by
  intro k cs
  induction cs generalizing k with
  | nil => intro i hi; cases hi
  | cons c rest ih =>
    intro i hi
    rcases List.mem_cons.mp hi with h | h
    · exact ⟨k, by rw [h]; rfl⟩
    · exact ih (k + 1) i h

theorem addItemsList_all_new (existing newItems : List Item)
    (h : ∀ i ∈ newItems, i.id ∉ existing.map (fun j => j.id)) :
    addItemsList existing newItems = existing ++ newItems := by
  unfold addItemsList
  simp only []
  rw [List.filter_eq_self.mpr ?hall]
  case hall =>
    intro i hi
    simpa using h i hi

/-- C6: the batch script-generation operation selects exactly the
approved concepts whose id does not already appear as a parentId among
the existing scripts, generates one script per selected concept
(appending them with parentId set to the source concept), and — as long
as the freshly drawn uuids do not collide with existing script ids —
running the operation again with no new approvals generates zero new
scripts and leaves the store unchanged. -/
theorem c6_batch_select_and_idempotent :
    ∀ (d : ProjectDocs) (gen : Item → GenResult) (fresh : Nat → String) (now : Nat),
      (∀ n, fresh n ∉ d.scripts.map (fun s2 => s2.id)) →
      (scriptsBatch d gen fresh now).2 = (eligibleConcepts d).length
      ∧ (scriptsBatch d gen fresh now).1.scripts
          = d.scripts ++ genScripts gen fresh now 0 (eligibleConcepts d)
      ∧ (scriptsBatch d gen fresh now).1.scripts.map (fun s2 => s2.parentId)
          = d.scripts.map (fun s2 => s2.parentId)
            ++ (eligibleConcepts d).map (fun c => some c.id)
      ∧ (scriptsBatch d gen fresh now).1.concepts = d.concepts
      ∧ ∀ (gen2 : Item → GenResult) (fresh2 : Nat → String) (now2 : Nat),
          scriptsBatch (scriptsBatch d gen fresh now).1 gen2 fresh2 now2
            = ((scriptsBatch d gen fresh now).1, 0) := by
  intro d gen fresh now hfresh
  have hnew : ∀ i ∈ genScripts gen fresh now 0 (eligibleConcepts d),
      i.id ∉ d.scripts.map (fun j => j.id) := by
    intro i hi
    rcases genScripts_ids gen fresh now 0 (eligibleConcepts d) i hi with ⟨n, hn⟩
    rw [hn]
    exact hfresh n
  have hscripts : (scriptsBatch d gen fresh now).1.scripts
      = d.scripts ++ genScripts gen fresh now 0 (eligibleConcepts d) := by
    by_cases h0 : eligibleConcepts d = []
    · have hb : scriptsBatch d gen fresh now = (d, 0) := by
        unfold scriptsBatch
        rw [if_pos h0]
      rw [hb, h0]
      show d.scripts = d.scripts ++ []
      rw [List.append_nil]
    · have hb : scriptsBatch d gen fresh now
          = (addItems d .scripts (genScripts gen fresh now 0 (eligibleConcepts d)),
             (genScripts gen fresh now 0 (eligibleConcepts d)).length) := by
        unfold scriptsBatch
        rw [if_neg h0]
      rw [hb]
      show addItemsList d.scripts (genScripts gen fresh now 0 (eligibleConcepts d)) = _
      exact addItemsList_all_new _ _ hnew
  have hcount : (scriptsBatch d gen fresh now).2 = (eligibleConcepts d).length := by
    by_cases h0 : eligibleConcepts d = []
    · have hb : scriptsBatch d gen fresh now = (d, 0) := by
        unfold scriptsBatch
        rw [if_pos h0]
      rw [hb, h0]
      rfl
    · have hb : scriptsBatch d gen fresh now
          = (addItems d .scripts (genScripts gen fresh now 0 (eligibleConcepts d)),
             (genScripts gen fresh now 0 (eligibleConcepts d)).length) := by
        unfold scriptsBatch
        rw [if_neg h0]
      rw [hb]
      exact genScripts_length gen fresh now 0 (eligibleConcepts d)
  have hconcepts : (scriptsBatch d gen fresh now).1.concepts = d.concepts := by
    by_cases h0 : eligibleConcepts d = []
    · have hb : scriptsBatch d gen fresh now = (d, 0) := by
        unfold scriptsBatch
        rw [if_pos h0]
      rw [hb]
    · have hb : scriptsBatch d gen fresh now
          = (addItems d .scripts (genScripts gen fresh now 0 (eligibleConcepts d)),
             (genScripts gen fresh now 0 (eligibleConcepts d)).length) := by
        unfold scriptsBatch
        rw [if_neg h0]
      rw [hb]
      rfl
  have hparent : (scriptsBatch d gen fresh now).1.scripts.map (fun s2 => s2.parentId)
      = d.scripts.map (fun s2 => s2.parentId)
        ++ (eligibleConcepts d).map (fun c => some c.id) := by
    rw [hscripts, List.map_append, genScripts_parentIds]
  refine ⟨hcount, hscripts, hparent, hconcepts, ?_⟩
  intro gen2 fresh2 now2
  have helig : eligibleConcepts (scriptsBatch d gen fresh now).1 = [] := by
    unfold eligibleConcepts
    simp only []
    rw [List.filter_eq_nil_iff]
    intro c hc
    simp only [decide_not, Bool.not_eq_true', decide_eq_false_iff_not, not_not]
    rw [hconcepts] at hc
    rw [hparent]
    by_cases hm : some c.id ∈ d.scripts.map (fun s2 => s2.parentId)
    · exact List.mem_append_left _ hm
    · have hcel : c ∈ eligibleConcepts d := by
        unfold eligibleConcepts
        simp only []
        refine List.mem_filter.mpr ⟨hc, ?_⟩
        simpa using hm
      exact List.mem_append_right _ (List.mem_map.mpr ⟨c, hcel, rfl⟩)
  generalize hD : (scriptsBatch d gen fresh now).1 = D at helig ⊢
  simp only [scriptsBatch]
  rw [if_pos helig]

/-- C6 witness: the batch run on a project with approved concepts A and
B and pending C generates two scripts, and an immediate second run
generates zero and leaves the store unchanged. -/
theorem c6_batch_select_and_idempotent_witness :
    (scriptsBatch demoDocsC6 demoGen demoFresh 5).2 = 2
    ∧ scriptsBatch (scriptsBatch demoDocsC6 demoGen demoFresh 5).1 demoGen demoFresh 9
        = ((scriptsBatch demoDocsC6 demoGen demoFresh 5).1, 0) := by
  have h := c6_batch_select_and_idempotent demoDocsC6 demoGen demoFresh 5
    (by intro n; simp [demoDocsC6])
  refine ⟨?_, h.2.2.2.2 demoGen demoFresh 9⟩
  rw [h.1]
  decide
